import Mathlib

/-!
Verification of the rule-based complaint classification and extraction engine
implemented in `libraries/complaint_classifier.py`.

The embedding models Python strings as `List Char`.  Python's `str.lower` is
modelled on the ASCII range (all non-ASCII characters occurring in this
code base, in particular the Chinese keywords, are caseless, so the ASCII
model agrees with full Unicode lowering on every input the theorems touch).
Python regular-expression matching for the three concrete patterns of
`extract_key_info` is modelled by direct scanners that reproduce Python's
leftmost-position, first-alternative, greedy-with-backtracking semantics for
those patterns.  A Python-level exception that escapes a function is
modelled as `Except.error ()`.
-/

namespace ComplaintAnalysis

/-- Model of `str.lower` on a single character: ASCII uppercase letters are
shifted by 32; every other character is unchanged. -/
def lowerChar (c : Char) : Char :=
  if 65 ≤ c.toNat ∧ c.toNat ≤ 90 then Char.ofNat (c.toNat + 32) else c

/-- Model of `str.lower` on a whole string. -/
def lowerL (s : List Char) : List Char := s.map lowerChar

/-- `startsWith hay pat`: `pat` is a prefix of `hay`. -/
def startsWith : List Char → List Char → Bool
  | _, [] => true
  | [], _ :: _ => false
  | c :: cs, p :: ps => c = p && startsWith cs ps

/-- Model of Python's substring test `pat in hay`. -/
def containsSub : List Char → List Char → Bool
  | [], pat => pat.isEmpty
  | c :: t, pat => startsWith (c :: t) pat || containsSub t pat

/-- A character on which Python lowering acts trivially in both directions:
neither an ASCII uppercase letter nor an ASCII lowercase letter. -/
def caseless (c : Char) : Bool :=
  !(65 ≤ c.toNat && c.toNat ≤ 90) && !(97 ≤ c.toNat && c.toNat ≤ 122)

/-- Python whitespace characters (ASCII range), as used by `str.split()`. -/
def isSpaceCh (c : Char) : Bool :=
  c = ' ' || c = Char.ofNat 9 || c = Char.ofNat 10 || c = Char.ofNat 13 ||
    c = Char.ofNat 11 || c = Char.ofNat 12

/-- Accumulator-based model of Python `str.split()` (split on whitespace
runs, dropping empty pieces).  Used only by the tokenizer fallback in
`classify`, whose result is never consumed. -/
def wsSplitAux : List Char → List Char → List (List Char)
  | [], acc => if acc.isEmpty then [] else [acc.reverse]
  | c :: cs, acc =>
    if isSpaceCh c then
      if acc.isEmpty then wsSplitAux cs [] else acc.reverse :: wsSplitAux cs []
    else wsSplitAux cs (c :: acc)

/-- Model of `text.lower().split()` applied to an already-lowered text. -/
def wsSplit (cs : List Char) : List (List Char) := wsSplitAux cs []

/-- The default category taxonomy written by `_load_complaint_categories`
(`complaint_classifier.py` lines 78-87). -/
def complaint_categories : List (String × List String) :=
  [("物流延迟", ["延迟", "还没到", "运输时间", "配送慢", "物流", "快递", "发货", "到达", "等待"]),
   ("商品损坏", ["损坏", "破损", "不完整", "质量问题", "有缺陷", "坏了", "不能用"]),
   ("退款问题", ["退款", "退钱", "不退", "退换", "取消订单", "不给退"]),
   ("商品质量", ["质量", "不好", "差", "不符合", "假货", "不如描述", "不如预期"]),
   ("客服体验", ["客服", "服务", "态度", "回复", "沟通", "联系不上", "没人理"]),
   ("账户问题", ["账户", "登录", "密码", "无法访问", "注册", "个人信息"]),
   ("促销争议", ["优惠券", "折扣", "促销", "活动", "降价", "价格", "广告"]),
   ("系统故障", ["网站", "App", "系统", "错误", "故障", "无法", "不能", "崩溃", "加载"])]

/-- The test `if keyword.lower() in text.lower()` of `classify`
(`complaint_classifier.py` line 142). -/
def keywordHit (t : List Char) (kw : String) : Bool :=
  containsSub (lowerL t) (lowerL kw.toList)

/-- The per-category keyword counts built by the loop at
`complaint_classifier.py` lines 138-143: each keyword of a category adds 1
to that category's count when it occurs (case-insensitively) in the text. -/
def word_counts (tax : List (String × List String)) (t : List Char) :
    List (String × Nat) :=
  tax.map fun p => (p.1, (p.2.filter (keywordHit t)).length)

/-- Model of Python's `max` over the (nonempty) values of `word_counts`:
fold of `Nat.max` seeded with the first value. -/
def foldlMax (a : Nat) (ws : List (String × Nat)) : Nat :=
  ws.foldl (fun m p => Nat.max m p.2) a

/-- The final loop of `classify` (`complaint_classifier.py` lines 152-154):
return the first category whose count equals `max_count`. -/
def firstWithCount : List (String × Nat) → Nat → Option String
  | [], _ => none
  | p :: ps, m => if p.2 = m then some p.1 else firstWithCount ps m

/-- Lines 145-154 of `complaint_classifier.py`, factored over an already
computed count list: `max_count := max(word_counts.values())` (raises
`ValueError` on an empty dict, modelled as `.error ()`), the zero test, and
the first-match loop.  If the loop fell through — impossible, since the
maximum is attained — Python would return `None`; that dead branch is
modelled as `.error ()`. -/
def pickCategory (wc : List (String × Nat)) : Except Unit String :=
  match wc with
  | [] => .error ()
  | w :: ws =>
    let max_count := foldlMax w.2 ws
    if max_count = 0 then .ok ("未分类")
    else
      match firstWithCount (w :: ws) max_count with
      | some c => .ok c
      | none => .error ()

/-- The keyword-matching path of `classify` (`complaint_classifier.py`
lines 126-154).  The tokenization `try` block (lines 130-136, NLTK
`word_tokenize` plus stop-word filtering) is an external-library call and is
modelled as the oracle `tok`; on its failure the code falls back to
`text.lower().split()`.  As in the source, the resulting token list is never
used afterwards. -/
def classifyKeywords (tok : List Char → Except Unit (List (List Char)))
    (tax : List (String × List String)) (t : List Char) : Except Unit String :=
  let _tokens : List (List Char) :=
    match tok (lowerL t) with
    | .ok ts => ts
    | .error _ => wsSplit (lowerL t)
  pickCategory (word_counts tax t)

/-- `ComplaintClassifier.classify` (`complaint_classifier.py` lines
103-154).  `text` is `none` for Python `None`; `if not text` covers both
`None` and the empty string.  The zero-shot transformer pipeline call
(lines 118-121, including the `result['labels'][0]` lookup) is an external
collaborator and is modelled as the oracle `semantic`; any exception it
raises is caught and the keyword path runs instead. -/
def classify (use_transformer : Bool)
    (semantic : List Char → Except Unit String)
    (tok : List Char → Except Unit (List (List Char)))
    (tax : List (String × List String))
    (text : Option (List Char)) : Except Unit String :=
  match text with
  | none => .ok ("未分类")
  | some t =>
    if t.isEmpty then .ok ("未分类")
    else if use_transformer then
      match semantic t with
      | .ok label => .ok label
      | .error _ => classifyKeywords tok tax t
    else classifyKeywords tok tax t

/-! ### Entity extraction (`extract_key_info`, lines 156-229) -/

/-- ASCII double quote. -/
def dq : Char := Char.ofNat 34

/-- ASCII single quote. -/
def sq : Char := Char.ofNat 39

/-- ASCII uppercase letter, the class `[A-Z]`. -/
def isUpperCh (c : Char) : Bool := 65 ≤ c.toNat && c.toNat ≤ 90

/-- ASCII digit, the class `\d` restricted to ASCII. -/
def isDigitCh (c : Char) : Bool := 48 ≤ c.toNat && c.toNat ≤ 57

/-- One alternative `q([^q]+)q` of the product pattern at the current
position: an opening quote, a nonempty maximal run of non-quote characters,
and a closing quote.  Returns the captured group and the total number of
characters consumed. -/
def quoteAlt (q : Char) (cs : List Char) : Option (List Char × Nat) :=
  match cs with
  | [] => none
  | c :: rest =>
    if c = q then
      let content := rest.takeWhile (fun x => x ≠ q)
      match rest.dropWhile (fun x => x ≠ q) with
      | _ :: _ => if content.isEmpty then none else some (content, content.length + 2)
      | [] => none
    else none

/-- The alternative `[A-Z]{2,}` of the product pattern at the current
position: a maximal uppercase run of length at least 2 (no capture group).
Returns the number of characters consumed. -/
def upperAlt (cs : List Char) : Option Nat :=
  let run := cs.takeWhile isUpperCh
  if 2 ≤ run.length then some run.length else none

/-- One attempted match of `"([^"]+)"|'([^']+)'|[A-Z]{2,}` at the current
position, alternatives tried in declared order.  The result is the pair of
capture groups (as `re.findall` reports them: one entry per group, unset
groups empty) together with the match length. -/
def productMatchAt (cs : List Char) :
    Option ((Option (List Char) × Option (List Char)) × Nat) :=
  match quoteAlt dq cs with
  | some (g, k) => some ((some g, none), k)
  | none =>
    match quoteAlt sq cs with
    | some (g, k) => some ((none, some g), k)
    | none =>
      match upperAlt cs with
      | some k => some ((none, none), k)
      | none => none

/-- `re.findall(product_pattern, text)`: scan left to right; at each
position try the alternatives in order; on a match emit its group tuple and
resume after the match, otherwise advance one character.  Every match
consumes at least one character, so `cs.length` steps of fuel always
suffice and the fuel never runs out. -/
def productGroupsFuel :
    Nat → List Char → List (Option (List Char) × Option (List Char))
  | 0, _ => []
  | _, [] => []
  | fuel + 1, c :: rest =>
    match productMatchAt (c :: rest) with
    | some (g, k) => g :: productGroupsFuel fuel ((c :: rest).drop k)
    | none => productGroupsFuel fuel rest

/-- `products = re.findall(product_pattern, text)`
(`complaint_classifier.py` line 170). -/
def productGroups (cs : List Char) :
    List (Option (List Char) × Option (List Char)) :=
  productGroupsFuel cs.length cs

/-- The inner loop of lines 174-181: from one `findall` tuple, keep the
truthy items (`if item:` — unset groups are the falsy empty string). -/
def truthyGroups (p : Option (List Char) × Option (List Char)) :
    List (List Char) :=
  ([p.1, p.2].filterMap id).filter (fun s => !s.isEmpty)

/-- Lines 168-184: `product_list` flattened over all matches, first entry
(if any) becoming `info['product_name']`. -/
def productNameOf (t : List Char) : Option (List Char) :=
  ((productGroups t).flatMap truthyGroups).head?

/-- `digitsToNat` interprets a run of ASCII digits as a decimal natural
number (the integer part of Python `float` on such a string). -/
def digitsToNat (ds : List Char) : Nat :=
  ds.foldl (fun n c => 10 * n + (c.toNat - 48)) 0

/-- The number token `\d+(?:\.\d{2})?` at the current position: a maximal
nonempty digit run, optionally followed by a dot and two digits (greedy).
Returns the value of Python `float` on the captured text, and the rest of
the input.  Shrinking the greedy runs can never rescue a failed
continuation for the concrete amount pattern (a digit is neither `.`,
whitespace, nor a currency word), so the greedy-only model is exact. -/
def matchNum (cs : List Char) : Option (ℚ × List Char) :=
  if (cs.takeWhile isDigitCh).isEmpty then none
  else
    match cs.dropWhile isDigitCh with
    | c :: d1 :: d2 :: r2 =>
      if c = '.' && isDigitCh d1 && isDigitCh d2 then
        some ((digitsToNat (cs.takeWhile isDigitCh) : ℚ)
          + (digitsToNat [d1, d2] : ℚ) / 100, r2)
      else some ((digitsToNat (cs.takeWhile isDigitCh) : ℚ), cs.dropWhile isDigitCh)
    | _ => some ((digitsToNat (cs.takeWhile isDigitCh) : ℚ), cs.dropWhile isDigitCh)

/-- The alternative `\$\s*(\d+(?:\.\d{2})?)` at the current position. -/
def dollarAlt (cs : List Char) : Option ℚ :=
  match cs with
  | [] => none
  | c :: rest =>
    if c = '$' then (matchNum (rest.dropWhile isSpaceCh)).map Prod.fst
    else none

/-- An alternative `(\d+(?:\.\d{2})?)\s*UNIT` at the current position, for
a currency-unit word `UNIT`. -/
def unitAlt (unit : List Char) (cs : List Char) : Option ℚ :=
  match matchNum cs with
  | some (v, rest) =>
    if startsWith (rest.dropWhile isSpaceCh) unit then some v else none
  | none => none

/-- One attempted match of the amount pattern
`\$\s*(\d+(?:\.\d{2})?)|(\d+(?:\.\d{2})?)\s*美元|(\d+(?:\.\d{2})?)\s*元`
at the current position, alternatives in declared order.  Exactly one group
is set in any match, so only the captured value is recorded. -/
def amountMatchAt (cs : List Char) : Option ℚ :=
  match dollarAlt cs with
  | some v => some v
  | none =>
    match unitAlt ("美元".toList) cs with
    | some v => some v
    | none => unitAlt ("元".toList) cs

/-- Lines 186-202: the first `findall` match for the amount pattern; the
Python loop stores the first truthy group of the first match and breaks,
and every amount match has exactly one (truthy) group, so `info['amount']`
is the first match's captured value. -/
def amountOf : List Char → Option ℚ
  | [] => none
  | c :: cs =>
    match amountMatchAt (c :: cs) with
    | some v => some v
    | none => amountOf cs

/-- `\d{n}`: exactly `n` digits (more may follow). -/
def takeExactDigits : Nat → List Char → Option (List Char × List Char)
  | 0, cs => some ([], cs)
  | _ + 1, [] => none
  | n + 1, c :: cs =>
    if isDigitCh c then
      match takeExactDigits n cs with
      | some (ds, r) => some (c :: ds, r)
      | none => none
    else none

/-- The separator class `[-\/]`. -/
def isSep (c : Char) : Bool := c = '-' || c = '/'

/-- `\d{1,2}[-\/]` with Python's greedy backtracking: two digits followed by
a separator, else one digit followed by a separator.  Returns the consumed
characters (separator included) and the rest. -/
def d12sep : List Char → Option (List Char × List Char)
  | a :: b :: rest =>
    if isDigitCh a && isDigitCh b then
      match rest with
      | s :: r => if isSep s then some ([a, b, s], r) else none
      | [] => none
    else if isDigitCh a && isSep b then some ([a, b], rest)
    else none
  | _ => none

/-- A trailing `\d{1,2}`: greedily up to two digits, at least one. -/
def d12end : List Char → Option (List Char × List Char)
  | a :: b :: r =>
    if isDigitCh a && isDigitCh b then some ([a, b], r)
    else if isDigitCh a then some ([a], b :: r)
    else none
  | [a] => if isDigitCh a then some ([a], []) else none
  | [] => none

/-- Date alternative 1, `\d{4}[-\/]\d{1,2}[-\/]\d{1,2}`, at the current
position; returns the matched text. -/
def dateAlt1 (cs : List Char) : Option (List Char) :=
  match takeExactDigits 4 cs with
  | some (y, r1) =>
    match r1 with
    | s :: r2 =>
      if isSep s then
        match d12sep r2 with
        | some (mid, r3) =>
          match d12end r3 with
          | some (dd, _) => some (y ++ s :: (mid ++ dd))
          | none => none
        | none => none
      else none
    | [] => none
  | none => none

/-- Date alternative 2, `\d{1,2}[-\/]\d{1,2}[-\/]\d{4}`. -/
def dateAlt2 (cs : List Char) : Option (List Char) :=
  match d12sep cs with
  | some (p1, r1) =>
    match d12sep r1 with
    | some (p2, r2) =>
      match takeExactDigits 4 r2 with
      | some (y, _) => some (p1 ++ p2 ++ y)
      | none => none
    | none => none
  | none => none

/-- Date alternative 3, `\d{1,2}[-\/]\d{1,2}[-\/]\d{2}`. -/
def dateAlt3 (cs : List Char) : Option (List Char) :=
  match d12sep cs with
  | some (p1, r1) =>
    match d12sep r1 with
    | some (p2, r2) =>
      match takeExactDigits 2 r2 with
      | some (y, _) => some (p1 ++ p2 ++ y)
      | none => none
    | none => none
  | none => none

/-- One attempted match of the date pattern at the current position,
alternatives in declared order (ISO-like year-first, day-first with 4-digit
year, day-first with 2-digit year). -/
def dateMatchAt (cs : List Char) : Option (List Char) :=
  match dateAlt1 cs with
  | some m => some m
  | none =>
    match dateAlt2 cs with
    | some m => some m
    | none => dateAlt3 cs

/-- Lines 204-208: `dates[0]`, the first date match, stored verbatim. -/
def incidentDateOf : List Char → Option (List Char)
  | [] => none
  | c :: cs =>
    match dateMatchAt (c :: cs) with
    | some m => some m
    | none => incidentDateOf cs

/-! ### Severity scoring (lines 210-227) -/

/-- The high-severity bucket `'高'` (line 212). -/
def highKeywords : List String :=
  ["紧急", "立即", "非常不满", "极其", "要求", "投诉", "退款", "起诉", "举报", "丢失"]

/-- The medium-severity bucket `'中'` (line 213). -/
def midKeywords : List String :=
  ["不满", "问题", "失望", "退换", "损坏", "延迟", "错误"]

/-- The low-severity bucket `'低'` (line 214). -/
def lowKeywords : List String :=
  ["咨询", "建议", "希望", "改进", "询问", "请问"]

/-- `severity_keywords` (lines 211-215), in dict insertion order. -/
def severity_keywords : List (String × List String) :=
  [("高", highKeywords), ("中", midKeywords), ("低", lowKeywords)]

/-- `severity_scores` (lines 217-221): per bucket, the number of its
keywords occurring as a (case-sensitive) substring of the text, one count
per keyword. -/
def sevScores (t : List Char) : List (String × Nat) :=
  severity_keywords.map fun p => (p.1, (p.2.filter (fun kw => containsSub t kw.toList)).length)

/-- Python's `max(d, key=d.get)`: the first entry attaining the maximal
value, in iteration order. -/
def pyMaxKey : List (String × Nat) → Option (String × Nat)
  | [] => none
  | x :: xs => some (xs.foldl (fun best p => if best.2 < p.2 then p else best) x)

/-- Lines 223-227: the severity field — the first bucket with maximal score
if that score is positive, else the default `'中'`.  The `none` branch is
unreachable (the score list always has three entries). -/
def severityOf (t : List Char) : String :=
  match pyMaxKey (sevScores t) with
  | some ms => if 0 < ms.2 then ms.1 else "中"
  | none => "中"

/-- The structured result of `extract_key_info` (the `info` dict): three
independently optional fields plus the always-present severity. -/
structure ExtractedInfo where
  product_name : Option (List Char)
  amount : Option ℚ
  incident_date : Option (List Char)
  severity : String
  deriving Repr, DecidableEq

/-- The body of `extract_key_info` on an actual string. -/
def extractInfoStr (t : List Char) : ExtractedInfo :=
  { product_name := productNameOf t
    amount := amountOf t
    incident_date := incidentDateOf t
    severity := severityOf t }

/-- `ComplaintClassifier.extract_key_info` (lines 156-229).  There is no
null guard: on `None` the very first statement
`re.findall(product_pattern, None)` raises `TypeError`, modelled as
`.error ()`. -/
def extract_key_info (text : Option (List Char)) : Except Unit ExtractedInfo :=
  match text with
  | none => .error ()
  | some t => .ok (extractInfoStr t)

/-! ### Claim-side definitions (formalising the spec's words, for the
refinement-style claims) -/

/-- Claim-side severity count: how many keywords of a bucket occur in the
text, counted once per keyword, with the same (case-insensitive) substring
test as the keyword classifier — the counting method the spec's §4.4
prescribes. -/
def specSevCount (t : List Char) (kws : List String) : Nat :=
  (kws.filter (keywordHit t)).length

/-- Claim-side severity decision rule, following the spec's words: the
bucket with the strictly maximum count wins; a maximum of 0 defaults to
medium; positive ties resolve by the fixed priority high > medium > low. -/
def sevSpecRule (h m l : Nat) : String :=
  if h = 0 ∧ m = 0 ∧ l = 0 then "中"
  else if m ≤ h ∧ l ≤ h then "高"
  else if l ≤ m then "中"
  else "低"

/-- A tokenizer oracle that always fails (NLTK raising), used to
instantiate theorems at concrete inputs. -/
def tokFail : List Char → Except Unit (List (List Char)) := fun _ => .error ()

/-- A tokenizer oracle that always succeeds with no tokens. -/
def tokOK : List Char → Except Unit (List (List Char)) := fun _ => .ok []

/-- A semantic-classifier oracle that always fails. -/
def semFail : List Char → Except Unit String := fun _ => .error ()

/-- The round-trip input of the spec's §8 testable property. -/
def roundtripText : String :=
  "订单号 ORD-12345 购买 \"iPhone 13\" 花费 $99.99 日期 2024-01-15"

/-! ### General lemmas about the string primitives -/

theorem startsWith_iff (pat : List Char) :
    ∀ hay, startsWith hay pat = true ↔ ∃ post, hay = pat ++ post := by
  induction pat with
  | nil =>
    intro hay
    simp [startsWith]
  | cons p ps ih =>
    intro hay
    cases hay with
    | nil => simp [startsWith]
    | cons c cs =>
      simp only [startsWith, Bool.and_eq_true, decide_eq_true_eq, ih,
        List.cons_append, List.cons.injEq]
      constructor
      · rintro ⟨rfl, post, rfl⟩
        exact ⟨post, rfl, rfl⟩
      · rintro ⟨post, rfl, rfl⟩
        exact ⟨rfl, post, rfl⟩

theorem containsSub_iff (hay pat : List Char) :
    containsSub hay pat = true ↔ ∃ pre post, hay = pre ++ pat ++ post := by
  induction hay with
  | nil =>
    simp only [containsSub, List.isEmpty_iff]
    constructor
    · rintro rfl
      exact ⟨[], [], rfl⟩
    · rintro ⟨pre, post, h⟩
      rcases List.append_eq_nil.mp h.symm with ⟨h1, h2⟩
      exact (List.append_eq_nil.mp h1).2
  | cons c t ih =>
    simp only [containsSub, Bool.or_eq_true, startsWith_iff, ih]
    constructor
    · rintro (⟨post, h⟩ | ⟨pre, post, rfl⟩)
      · exact ⟨[], post, by simp [h]⟩
      · exact ⟨c :: pre, post, rfl⟩
    · rintro ⟨pre, post, h⟩
      cases pre with
      | nil =>
        left
        exact ⟨post, by simpa using h⟩
      | cons c2 pre2 =>
        right
        simp only [List.cons_append, List.cons.injEq] at h
        exact ⟨pre2, post, h.2⟩

theorem toNat_ofNat_small (n : Nat) (h : n < 55296) : (Char.ofNat n).toNat = n := by
  have hv : n.isValidChar := Or.inl h
  simp [Char.ofNat, hv, Char.ofNatAux, Char.toNat, UInt32.toNat, BitVec.toNat_ofNatLt]

theorem lowerChar_toNat (x : Char) :
    (lowerChar x).toNat =
      if 65 ≤ x.toNat ∧ x.toNat ≤ 90 then x.toNat + 32 else x.toNat := by
  unfold lowerChar
  split
  · next hx => exact toNat_ofNat_small _ (by omega)
  · rfl

theorem lowerChar_eq_iff_of_caseless {c : Char} (hc : caseless c = true) (x : Char) :
    lowerChar x = c ↔ x = c := by
  simp only [caseless, Bool.and_eq_true, Bool.not_eq_true', Bool.and_eq_false_iff,
    decide_eq_false_iff_not, not_le] at hc
  constructor
  · intro h
    have ht := congrArg Char.toNat h
    rw [lowerChar_toNat] at ht
    by_cases hx : 65 ≤ x.toNat ∧ x.toNat ≤ 90
    · rw [if_pos hx] at ht
      omega
    · unfold lowerChar at h
      rw [if_neg hx] at h
      exact h
  · rintro rfl
    unfold lowerChar
    rw [if_neg]
    intro hx
    omega

theorem lowerL_eq_of_caseless {pat : List Char} (hp : pat.all caseless = true) :
    lowerL pat = pat := by
  induction pat with
  | nil => rfl
  | cons p ps ih =>
    simp only [List.all_cons, Bool.and_eq_true] at hp
    simp only [lowerL, List.map_cons]
    rw [show lowerChar p = p from (lowerChar_eq_iff_of_caseless hp.1 p).mpr rfl]
    simpa [lowerL] using ih hp.2

theorem startsWith_lowerL_of_caseless {pat : List Char} (hp : pat.all caseless = true) :
    ∀ hay, startsWith (lowerL hay) pat = startsWith hay pat := by
  induction pat with
  | nil => intro hay; cases hay <;> rfl
  | cons p ps ih =>
    intro hay
    cases hay with
    | nil => rfl
    | cons c cs =>
      simp only [List.all_cons, Bool.and_eq_true] at hp
      simp only [lowerL, List.map_cons, startsWith]
      have hdec : decide (lowerChar c = p) = decide (c = p) :=
        decide_eq_decide.mpr (lowerChar_eq_iff_of_caseless hp.1 c)
      rw [hdec,
        show startsWith (List.map lowerChar cs) ps = startsWith cs ps from ih hp.2 cs]

theorem containsSub_lowerL_of_caseless {pat : List Char} (hp : pat.all caseless = true)
    (hay : List Char) : containsSub (lowerL hay) pat = containsSub hay pat := by
  induction hay with
  | nil => rfl
  | cons c cs ih =>
    simp only [lowerL, List.map_cons, containsSub]
    rw [show startsWith (lowerChar c :: List.map lowerChar cs) pat
          = startsWith (c :: cs) pat from startsWith_lowerL_of_caseless hp (c :: cs)]
    rw [show containsSub (List.map lowerChar cs) pat = containsSub cs pat from ih]

/-- For an all-caseless keyword the classifier's case-insensitive test
coincides with the severity scorer's case-sensitive one. -/
theorem keywordHit_eq_containsSub_of_caseless {kw : String}
    (hk : kw.toList.all caseless = true) (t : List Char) :
    keywordHit t kw = containsSub t kw.toList := by
  unfold keywordHit
  rw [lowerL_eq_of_caseless hk, containsSub_lowerL_of_caseless hk]

/-! ### Lemmas about the maximum fold and the first-match loop -/

theorem foldlMax_init_le (ws : List (String × Nat)) :
    ∀ a, a ≤ foldlMax a ws := by
  induction ws with
  | nil => intro a; exact Nat.le_refl a
  | cons w ws ih =>
    intro a
    exact Nat.le_trans (Nat.le_max_left a w.2) (ih (Nat.max a w.2))

theorem foldlMax_le_of_mem {ws : List (String × Nat)} {q : String × Nat}
    (hq : q ∈ ws) : ∀ a, q.2 ≤ foldlMax a ws := by
  induction ws with
  | nil => cases hq
  | cons w ws ih =>
    intro a
    rcases List.mem_cons.mp hq with rfl | hq2
    · exact Nat.le_trans (Nat.le_max_right a q.2) (foldlMax_init_le ws _)
    · exact ih hq2 _

theorem foldlMax_cases (ws : List (String × Nat)) :
    ∀ a, foldlMax a ws = a ∨ ∃ q ∈ ws, foldlMax a ws = q.2 := by
  induction ws with
  | nil => intro a; exact Or.inl rfl
  | cons w ws ih =>
    intro a
    rcases ih (Nat.max a w.2) with h | ⟨q, hq, h⟩
    · rcases Nat.le_total a w.2 with hab | hab
      · right
        exact ⟨w, List.mem_cons_self w ws,
          by simpa [foldlMax, Nat.max_eq_right hab] using h⟩
      · left
        simpa [foldlMax, Nat.max_eq_left hab] using h
    · right
      exact ⟨q, List.mem_cons_of_mem w hq, h⟩

theorem foldlMax_le {b : Nat} {ws : List (String × Nat)}
    (hws : ∀ q ∈ ws, q.2 ≤ b) : ∀ a, a ≤ b → foldlMax a ws ≤ b := by
  induction ws with
  | nil => intro a ha; exact ha
  | cons w ws ih =>
    intro a ha
    exact ih (fun q hq => hws q (List.mem_cons_of_mem w hq))
      _ (Nat.max_le.mpr ⟨ha, hws w (List.mem_cons_self w ws)⟩)

theorem firstWithCount_split {l : List (String × Nat)} {m : Nat} {c : String}
    (h : firstWithCount l m = some c) :
    ∃ l1 p l2, l = l1 ++ p :: l2 ∧ p.1 = c ∧ p.2 = m ∧ ∀ q ∈ l1, q.2 ≠ m := by
  induction l with
  | nil => simp [firstWithCount] at h
  | cons w ws ih =>
    by_cases hw : w.2 = m
    · refine ⟨[], w, ws, rfl, ?_, hw, by simp⟩
      simp only [firstWithCount, if_pos hw, Option.some.injEq] at h
      exact h
    · simp only [firstWithCount, if_neg hw] at h
      obtain ⟨l1, p, l2, rfl, hc, hm, hl1⟩ := ih h
      refine ⟨w :: l1, p, l2, rfl, hc, hm, ?_⟩
      intro q hq
      rcases List.mem_cons.mp hq with rfl | hq2
      · exact hw
      · exact hl1 q hq2

theorem firstWithCount_isSome {l : List (String × Nat)} {m : Nat}
    (h : ∃ p ∈ l, p.2 = m) : ∃ c, firstWithCount l m = some c := by
  induction l with
  | nil => simp at h
  | cons w ws ih =>
    by_cases hw : w.2 = m
    · exact ⟨w.1, by simp [firstWithCount, hw]⟩
    · obtain ⟨p, hp, hpm⟩ := h
      rcases List.mem_cons.mp hp with rfl | hp2
      · exact absurd hpm hw
      · obtain ⟨c, hc⟩ := ih ⟨p, hp2, hpm⟩
        exact ⟨c, by simp [firstWithCount, hw, hc]⟩

theorem firstWithCount_append {l1 l2 : List (String × Nat)} {p : String × Nat}
    {m : Nat} (h1 : ∀ q ∈ l1, q.2 ≠ m) (hp : p.2 = m) :
    firstWithCount (l1 ++ p :: l2) m = some p.1 := by
  induction l1 with
  | nil => simp [firstWithCount, hp]
  | cons w ws ih =>
    have hw : w.2 ≠ m := h1 w (List.mem_cons_self w ws)
    simp only [List.cons_append, firstWithCount, if_neg hw]
    exact ih fun q hq => h1 q (List.mem_cons_of_mem w hq)

/-- `pickCategory` on an all-zero (nonempty) count list returns the
sentinel. -/
theorem pickCategory_all_zero {wc : List (String × Nat)}
    (hz : ∀ q ∈ wc, q.2 = 0) (hne : wc ≠ []) :
    pickCategory wc = .ok ("未分类") := by
  cases wc with
  | nil => exact absurd rfl hne
  | cons w ws =>
    have hmax : foldlMax w.2 ws = 0 := by
      have hb : foldlMax w.2 ws ≤ 0 :=
        foldlMax_le (fun q hq => Nat.le_of_eq (hz q (List.mem_cons_of_mem w hq)))
          w.2 (Nat.le_of_eq (hz w (List.mem_cons_self w ws)))
      omega
    simp [pickCategory, hmax]

/-- `pickCategory` on a count list with some positive count returns the
first entry attaining the maximum: there is a split of the list at the
returned category such that its count is positive, maximal over the whole
list, and strictly above every earlier entry's count. -/
theorem pickCategory_pos {wc : List (String × Nat)}
    (hpos : ∃ q ∈ wc, 0 < q.2) :
    ∃ l1 p l2, wc = l1 ++ p :: l2
      ∧ pickCategory wc = .ok p.1
      ∧ 0 < p.2
      ∧ (∀ q ∈ wc, q.2 ≤ p.2)
      ∧ (∀ q ∈ l1, q.2 < p.2) := by
  obtain ⟨q0, hq0, hq0pos⟩ := hpos
  cases wc with
  | nil => cases hq0
  | cons w ws =>
    set M := foldlMax w.2 ws with hM
    have hMattained : ∃ p ∈ w :: ws, p.2 = M := by
      rcases foldlMax_cases ws w.2 with h | ⟨q, hq, h⟩
      · exact ⟨w, List.mem_cons_self w ws, h.symm⟩
      · exact ⟨q, List.mem_cons_of_mem w hq, h.symm⟩
    have hub : ∀ q ∈ w :: ws, q.2 ≤ M := by
      intro q hq
      rcases List.mem_cons.mp hq with rfl | hq2
      · exact foldlMax_init_le ws q.2
      · exact foldlMax_le_of_mem hq2 w.2
    have hMpos : 0 < M := Nat.lt_of_lt_of_le hq0pos (hub q0 hq0)
    obtain ⟨c, hc⟩ := firstWithCount_isSome hMattained
    obtain ⟨l1, p, l2, hsplit, hpc, hpm, hl1⟩ := firstWithCount_split hc
    refine ⟨l1, p, l2, hsplit, ?_, by omega, by rw [hsplit] at hub ⊢; simpa [hpm] using hub, ?_⟩
    · simp only [pickCategory, ← hM, if_neg (by omega : ¬ M = 0), hc, hpc]
    · intro q hq
      have hqle : q.2 ≤ M := hub q (by rw [hsplit]; exact List.mem_append_left _ hq)
      have hqne : q.2 ≠ M := hl1 q hq
      omega

/-- `pickCategory` on a list that is zero outside a single positive entry
returns that entry's category. -/
theorem pickCategory_unique {l1 l2 : List (String × Nat)} {p : String × Nat}
    (h1 : ∀ q ∈ l1, q.2 = 0) (h2 : ∀ q ∈ l2, q.2 = 0) (hp : 0 < p.2) :
    pickCategory (l1 ++ p :: l2) = .ok p.1 := by
  obtain ⟨m1, q, m2, hsplit, hpick, hqpos, _, _⟩ :=
    @pickCategory_pos (l1 ++ p :: l2) ⟨p, by simp, hp⟩
  have hq0 : q ∈ l1 ++ p :: l2 := by rw [hsplit]; simp
  rcases List.mem_append.mp hq0 with hql | hqr
  · exact absurd (h1 q hql) (by omega)
  · rcases List.mem_cons.mp hqr with rfl | hq2
    · exact hpick
    · exact absurd (h2 q hq2) (by omega)

theorem classifyKeywords_eq (tok : List Char → Except Unit (List (List Char)))
    (tax : List (String × List String)) (t : List Char) :
    classifyKeywords tok tax t = pickCategory (word_counts tax t) := rfl

/-! ### Claim theorems for the keyword classifier -/

/-- Claim C2: when several categories tie at the maximum keyword count the
keyword classifier returns the tied category appearing first in taxonomy
iteration order (every earlier category scores strictly below the
maximum), a maximum of 0 over all categories yields "未分类"
("unclassified"), and in particular for a taxonomy whose two categories A
and B share one identical keyword, on a text containing that keyword the
result is always A, the first of the two. -/
theorem classify_tiebreak_first_in_taxonomy
    (tok : List Char → Except Unit (List (List Char)))
    (tax : List (String × List String)) (t : List Char) (htax : tax ≠ []) :
    ((∀ q ∈ word_counts tax t, q.2 = 0) →
        classifyKeywords tok tax t = .ok ("未分类"))
  ∧ ((∃ q ∈ word_counts tax t, 0 < q.2) →
      ∃ l1 p l2, word_counts tax t = l1 ++ p :: l2
        ∧ classifyKeywords tok tax t = .ok p.1
        ∧ 0 < p.2
        ∧ (∀ q ∈ word_counts tax t, q.2 ≤ p.2)
        ∧ (∀ q ∈ l1, q.2 < p.2))
  ∧ (∀ (A B kw : String) (u : List Char), keywordHit u kw = true →
      classifyKeywords tok [(A, [kw]), (B, [kw])] u = .ok A) := by
  refine ⟨?_, ?_, ?_⟩
  · intro hz
    rw [classifyKeywords_eq]
    exact pickCategory_all_zero hz
      (by simpa [word_counts, List.map_eq_nil_iff] using htax)
  · intro hpos
    obtain ⟨l1, p, l2, hsplit, hpick, hp, hub, hlt⟩ := pickCategory_pos hpos
    exact ⟨l1, p, l2, hsplit, by rw [classifyKeywords_eq]; exact hpick, hp, hub, hlt⟩
  · intro A B kw u hkw
    rw [classifyKeywords_eq]
    have hwc : word_counts [(A, [kw]), (B, [kw])] u = [(A, 1), (B, 1)] := by
      simp [word_counts, hkw]
    rw [hwc]
    simp [pickCategory, foldlMax, firstWithCount]

/-- Claim C4: if the text contains at least one keyword of exactly one
category (as a case-insensitive substring) and no keyword of any other
category, the keyword classifier returns that category. -/
theorem classify_unique_category
    (tok : List Char → Except Unit (List (List Char)))
    (tax1 tax2 : List (String × List String)) (c : String)
    (kws : List String) (t : List Char)
    (hhit : ∃ kw ∈ kws, keywordHit t kw = true)
    (hmiss : ∀ q ∈ tax1 ++ tax2, ∀ kw ∈ q.2, keywordHit t kw = false) :
    classifyKeywords tok (tax1 ++ (c, kws) :: tax2) t = .ok c := by
  rw [classifyKeywords_eq]
  have hwc : word_counts (tax1 ++ (c, kws) :: tax2) t
      = (word_counts tax1 t) ++ ((c, (kws.filter (keywordHit t)).length) :: word_counts tax2 t) := by
    simp [word_counts]
  rw [hwc]
  have hzero : ∀ (l : List (String × List String)),
      (∀ q ∈ l, ∀ kw ∈ q.2, keywordHit t kw = false) →
      ∀ q ∈ word_counts l t, q.2 = 0 := by
    intro l hl q hq
    simp only [word_counts, List.mem_map] at hq
    obtain ⟨r, hr, rfl⟩ := hq
    simp only [List.length_eq_zero]
    apply List.filter_eq_nil_iff.mpr
    intro kw hkw
    simp [hl r hr kw hkw]
  have hp : 0 < (kws.filter (keywordHit t)).length := by
    obtain ⟨kw, hkw, hhit2⟩ := hhit
    exact List.length_pos.mpr
      (List.ne_nil_of_mem (List.mem_filter.mpr ⟨hkw, hhit2⟩))
  exact pickCategory_unique
    (hzero tax1 fun q hq => hmiss q (List.mem_append_left _ hq))
    (hzero tax2 fun q hq => hmiss q (List.mem_append_right _ hq))
    hp

/-- Claim C9: the keyword classifier's result does not depend on the
tokenizer oracle at all (tokenizer success, failure with whitespace-split
fallback — the token list is never consumed), and, for a nonempty
taxonomy, it never raises: it always returns a category value. -/
theorem classifyKeywords_tokenizer_irrelevant
    (tok tok2 : List Char → Except Unit (List (List Char)))
    (tax : List (String × List String)) (t : List Char) (htax : tax ≠ []) :
    classifyKeywords tok tax t = classifyKeywords tok2 tax t
  ∧ ∃ c, classifyKeywords tok tax t = .ok c := by
  refine ⟨rfl, ?_⟩
  rw [classifyKeywords_eq]
  by_cases hpos : ∃ q ∈ word_counts tax t, 0 < q.2
  · obtain ⟨_, p, _, _, hpick, _, _, _⟩ := pickCategory_pos hpos
    exact ⟨p.1, hpick⟩
  · push_neg at hpos
    refine ⟨"未分类", pickCategory_all_zero (fun q hq => ?_)
      (by simpa [word_counts, List.map_eq_nil_iff] using htax)⟩
    have := hpos q hq
    omega

/-- Claim C8: with the transformer classifier enabled, on any nonempty
text where the semantic oracle fails, `classify` surfaces no error and
returns exactly the keyword-matching path's result. -/
theorem classify_transformer_failure_fallback
    (semantic : List Char → Except Unit String)
    (tok : List Char → Except Unit (List (List Char)))
    (tax : List (String × List String)) (t : List Char)
    (hne : t ≠ []) (hfail : semantic t = .error ()) :
    classify true semantic tok tax (some t) = classifyKeywords tok tax t := by
  cases t with
  | nil => exact absurd rfl hne
  | cons c cs => simp [classify, hfail]

/-- Claim C3 (amended part): `classify` maps both null and empty text to
"未分类"; `extract_key_info` on the empty string yields the default-medium
severity with every other field absent; but `extract_key_info` on null
raises (`re.findall` on `None` raises `TypeError`). -/
theorem empty_null_handling_amended :
    (∀ (b : Bool) (semantic : List Char → Except Unit String)
       (tok : List Char → Except Unit (List (List Char)))
       (tax : List (String × List String)),
        classify b semantic tok tax none = .ok ("未分类")
      ∧ classify b semantic tok tax (some []) = .ok ("未分类"))
  ∧ extract_key_info (some []) =
      .ok { product_name := none, amount := none, incident_date := none,
            severity := "中" }
  ∧ extract_key_info none = .error () := by
  exact ⟨fun b semantic tok tax => ⟨rfl, rfl⟩, rfl, rfl⟩

/-- Claim C3 (counterexample to the claim as stated): on null input
`extract_key_info` propagates an exception instead of returning a
medium-severity result. -/
theorem extract_key_info_none_raises : extract_key_info none = .error () := rfl

/-! ### Severity scorer: claim C1 -/

theorem highKeywords_caseless : ∀ kw ∈ highKeywords, kw.toList.all caseless = true := by
  decide

theorem midKeywords_caseless : ∀ kw ∈ midKeywords, kw.toList.all caseless = true := by
  decide

theorem lowKeywords_caseless : ∀ kw ∈ lowKeywords, kw.toList.all caseless = true := by
  decide

/-- The severity scorer's case-sensitive substring count agrees, on its
all-caseless keyword buckets, with the case-insensitive counting method of
the keyword classifier. -/
theorem sevCount_eq_specSevCount {kws : List String}
    (h : ∀ kw ∈ kws, kw.toList.all caseless = true) (t : List Char) :
    (kws.filter (fun kw => containsSub t kw.toList)).length = specSevCount t kws := by
  unfold specSevCount
  congr 1
  apply List.filter_congr
  intro kw hkw
  rw [keywordHit_eq_containsSub_of_caseless (h kw hkw)]

/-- Python's first-max-key selection over the three fixed buckets, followed
by the positivity test, implements exactly the spec's decision rule:
strict maximum wins, zero maximum defaults to medium, positive ties break
as high > medium > low. -/
theorem pyMaxKey_rule (h m l : Nat) :
    (match pyMaxKey [("高", h), ("中", m), ("低", l)] with
     | some ms => if 0 < ms.2 then ms.1 else "中"
     | none => "中") = sevSpecRule h m l := by
  by_cases h1 : h < m
  · by_cases h2 : m < l
    · have h0 : 0 < l := by omega
      simp only [pyMaxKey, List.foldl, if_pos h1, if_pos h2, if_pos h0]
      unfold sevSpecRule
      rw [if_neg (by omega), if_neg (by omega), if_neg (by omega)]
    · have h0 : 0 < m := by omega
      simp only [pyMaxKey, List.foldl, if_pos h1, if_neg h2, if_pos h0]
      unfold sevSpecRule
      rw [if_neg (by omega), if_neg (by omega), if_pos (by omega)]
  · by_cases h2 : h < l
    · have h0 : 0 < l := by omega
      simp only [pyMaxKey, List.foldl, if_neg h1, if_pos h2, if_pos h0]
      unfold sevSpecRule
      rw [if_neg (by omega), if_neg (by omega), if_neg (by omega)]
    · by_cases h3 : 0 < h
      · simp only [pyMaxKey, List.foldl, if_neg h1, if_neg h2, if_pos h3]
        unfold sevSpecRule
        rw [if_neg (by omega), if_pos (by omega)]
      · simp only [pyMaxKey, List.foldl, if_neg h1, if_neg h2, if_neg h3]
        unfold sevSpecRule
        rw [if_pos (by omega)]

/-- Claim C1: `extract_key_info` never raises on an actual string, and the
severity it returns is exactly the spec's rule — the bucket with the
strictly maximum count (counting each bucket keyword once, by the same
substring method as the keyword classifier), defaulting to medium on an
all-zero maximum and breaking positive ties by the fixed priority
high > medium > low. -/
theorem severity_follows_spec_rule (t : List Char) :
    extract_key_info (some t) = .ok (extractInfoStr t)
  ∧ (extractInfoStr t).severity =
      sevSpecRule (specSevCount t highKeywords) (specSevCount t midKeywords)
        (specSevCount t lowKeywords) := by
  refine ⟨rfl, ?_⟩
  show severityOf t = _
  unfold severityOf
  have hsc : sevScores t =
      [("高", specSevCount t highKeywords), ("中", specSevCount t midKeywords),
       ("低", specSevCount t lowKeywords)] := by
    simp only [sevScores, severity_keywords, List.map_cons, List.map_nil]
    rw [sevCount_eq_specSevCount highKeywords_caseless,
      sevCount_eq_specSevCount midKeywords_caseless,
      sevCount_eq_specSevCount lowKeywords_caseless]
  rw [hsc]
  exact pyMaxKey_rule _ _ _

/-! ### Keyword counting: claim C5 -/

/-- Claim C5: each category's count is the number of its keywords (counted
with multiplicity in the keyword list, but only once per keyword however
often it occurs in the text) that hit the text, and a keyword hits exactly
when its lowercase form occurs as a contiguous substring somewhere in the
lowercase text. -/
theorem word_counts_substring_spec (tax : List (String × List String)) (t : List Char) :
    word_counts tax t = tax.map (fun p => (p.1, p.2.countP (keywordHit t)))
  ∧ ∀ (hay pat : List Char),
      containsSub hay pat = true ↔ ∃ pre post, hay = pre ++ pat ++ post := by
  constructor
  · simp [word_counts, List.countP_eq_length_filter]
  · exact containsSub_iff

/-! ### Amount extraction: claim C10 -/

theorem matchNum_nonneg {cs : List Char} {v : ℚ} {r : List Char}
    (h : matchNum cs = some (v, r)) : 0 ≤ v := by
  unfold matchNum at h
  split at h
  · exact absurd h (by simp)
  · split at h
    · split at h <;>
        · simp only [Option.some.injEq, Prod.mk.injEq] at h
          rw [← h.1]
          positivity
    · simp only [Option.some.injEq, Prod.mk.injEq] at h
      rw [← h.1]
      positivity

theorem dollarAlt_nonneg {cs : List Char} {v : ℚ} (h : dollarAlt cs = some v) :
    0 ≤ v := by
  unfold dollarAlt at h
  split at h
  · exact absurd h (by simp)
  · split at h
    · rw [Option.map_eq_some'] at h
      obtain ⟨⟨v2, r⟩, hm, hv⟩ := h
      rw [← hv]
      exact matchNum_nonneg hm
    · exact absurd h (by simp)

theorem unitAlt_nonneg {unit cs : List Char} {v : ℚ}
    (h : unitAlt unit cs = some v) : 0 ≤ v := by
  unfold unitAlt at h
  split at h
  · next v2 r hm =>
    split at h
    · simp only [Option.some.injEq] at h
      rw [← h]
      exact matchNum_nonneg hm
    · exact absurd h (by simp)
  · exact absurd h (by simp)

theorem amountMatchAt_nonneg {cs : List Char} {v : ℚ}
    (h : amountMatchAt cs = some v) : 0 ≤ v := by
  unfold amountMatchAt at h
  split at h
  · next hd => simp only [Option.some.injEq] at h; rw [← h]; exact dollarAlt_nonneg hd
  · split at h
    · next hu => simp only [Option.some.injEq] at h; rw [← h]; exact unitAlt_nonneg hu
    · exact unitAlt_nonneg h

theorem amountOf_nonneg {t : List Char} {v : ℚ} (h : amountOf t = some v) :
    0 ≤ v := by
  induction t with
  | nil => simp [amountOf] at h
  | cons c cs ih =>
    unfold amountOf at h
    split at h
    · next ha => simp only [Option.some.injEq] at h; rw [← h]; exact amountMatchAt_nonneg ha
    · exact ih h

/-- Claim C10: whenever `extract_key_info` returns an amount, that amount
is non-negative — the amount patterns capture only unsigned digit
sequences with an optional two-digit fraction. -/
theorem amount_nonneg (t : List Char) (r : ExtractedInfo) (a : ℚ)
    (hr : extract_key_info (some t) = .ok r) (ha : r.amount = some a) :
    0 ≤ a := by
  have hr2 : extractInfoStr t = r := by
    simpa [extract_key_info] using hr
  rw [← hr2] at ha
  exact amountOf_nonneg ha

/-! ### Concrete evaluations: claims C6 and C7 -/

/-- Claim C6 (evaluation at the failing input): on a text whose only
product-pattern match is the bare uppercase token "ABCD", `re.findall`
reports one match whose two capture groups are both unset (the `[A-Z]{2,}`
alternative has no group), so the truthy-item filter drops it and no
`product_name` is produced — contradicting the claim that the token
becomes the product name. -/
theorem uppercase_product_never_captured :
    productGroups ("手机 ABCD 坏了".toList) = [(none, none)]
  ∧ (extractInfoStr ("手机 ABCD 坏了".toList)).product_name = none := by
  decide

/-- Claim C7: the spec's round-trip property on the exact documented
input: product name "iPhone 13", amount 99.99, incident date
"2024-01-15". -/
theorem extract_key_info_roundtrip :
    extract_key_info (some (roundtripText.toList)) =
      .ok (extractInfoStr (roundtripText.toList))
  ∧ (extractInfoStr (roundtripText.toList)).product_name = some ("iPhone 13".toList)
  ∧ (extractInfoStr (roundtripText.toList)).amount = some ((9999 : ℚ) / 100)
  ∧ (extractInfoStr (roundtripText.toList)).incident_date = some ("2024-01-15".toList) := by
  refine ⟨rfl, by decide, ?_, by decide⟩
  have h1 : (extractInfoStr (roundtripText.toList)).amount
      = some ((digitsToNat ('9' :: '9' :: []) : ℚ)
          + (digitsToNat ('9' :: '9' :: []) : ℚ) / 100) := rfl
  have h2 : digitsToNat ('9' :: '9' :: []) = 99 := rfl
  rw [h1, h2, Option.some_inj]
  norm_num

/-! ### Witnesses -/

theorem classify_tiebreak_witness :
    classifyKeywords tokOK [("A", ["x"]), ("B", ["x"])] ("x".toList) = .ok ("A") :=
  (classify_tiebreak_first_in_taxonomy tokOK [("A", ["x"]), ("B", ["x"])]
      ("x".toList) (List.cons_ne_nil _ _)).2.2 ("A") ("B") ("x") ("x".toList)
    (by decide)

theorem classify_unique_witness :
    classifyKeywords tokFail
        ([] ++ ("物流延迟", ["延迟", "物流"]) :: [("商品损坏", ["损坏", "破损"])])
        ("物流延迟太严重了".toList) = .ok ("物流延迟") :=
  classify_unique_category tokFail [] [("商品损坏", ["损坏", "破损"])]
    ("物流延迟") ["延迟", "物流"] ("物流延迟太严重了".toList)
    ⟨"延迟", by decide, by decide⟩ (by decide)

theorem tokenizer_irrelevant_witness :
    classifyKeywords tokFail complaint_categories ("退款".toList)
      = classifyKeywords tokOK complaint_categories ("退款".toList)
  ∧ ∃ c, classifyKeywords tokFail complaint_categories ("退款".toList) = .ok c :=
  classifyKeywords_tokenizer_irrelevant tokFail tokOK complaint_categories
    ("退款".toList) (List.cons_ne_nil _ _)

theorem transformer_fallback_witness :
    classify true semFail tokOK complaint_categories (some ("延迟".toList))
      = classifyKeywords tokOK complaint_categories ("延迟".toList) :=
  classify_transformer_failure_fallback semFail tokOK complaint_categories
    ("延迟".toList) (by decide) rfl

theorem amount_nonneg_witness : (0 : ℚ) ≤ (digitsToNat ('1' :: []) : ℚ) :=
  amount_nonneg ("$1".toList) (extractInfoStr ("$1".toList))
    ((digitsToNat ('1' :: []) : ℚ)) rfl rfl

end ComplaintAnalysis
